import Mathlib

/-!
Verification of the RecoDeck audio analysis subsystem
(`src-tauri/src/audio`: `waveform.rs`, `bpm.rs`, `key.rs`, `decoder.rs`).

Modelling conventions:
* Machine integers (`u8` / `u32` / `u64` / `usize`) are modelled as `Nat`;
  wrapping casts are written with an explicit `% 2 ^ w`.
* An `f32` value stored in the waveform blob is modelled by its 32-bit
  pattern (a `Nat` below `2 ^ 32`): `f32::to_le_bytes` / `from_le_bytes`
  are bit-pattern conversions, so the blob round trip acts on patterns.
* `f64` / `f32` sample and DSP arithmetic is modelled over `ℚ`; decimal
  literals of the source become the corresponding exact rationals.
* Transcendental operations (the Hann window cosine, the `log2` based
  frequency-to-pitch-class map, `sqrt` / `powf(0.5)`) and the external
  libraries (rustfft, aubio, symphonia) are not repository code; they
  enter the model as explicit parameters (`Key.DspEnv`, the raw aubio
  tempo outputs, the decoder seek oracle), so every repository-owned
  computation is embedded and executable.
-/

/-! ## Little-endian byte encoding helpers (`u32::to_le_bytes` etc.) -/

/-- `w`-byte little-endian encoding of a natural number, as produced by
`to_le_bytes` on a `w`-byte unsigned integer. -/
def toLeBytes : Nat → Nat → List Nat
  | 0, _ => []
  | w + 1, v => v % 256 :: toLeBytes w (v / 256)

/-- Little-endian decoding, as performed by `from_le_bytes`. -/
def fromLeBytes (bs : List Nat) : Nat :=
  bs.foldr (fun b acc => b + 256 * acc) 0

theorem toLeBytes_length (w v : Nat) : (toLeBytes w v).length = w := by
  induction w generalizing v with
  | zero => rfl
  | succ w ih => simp [toLeBytes, ih]

theorem fromLeBytes_toLeBytes (w v : Nat) (h : v < 2 ^ (8 * w)) :
    fromLeBytes (toLeBytes w v) = v := by
  induction w generalizing v with
  | zero =>
    simp only [Nat.mul_zero, pow_zero, Nat.lt_one_iff] at h
    simp [toLeBytes, fromLeBytes, h]
  | succ w ih =>
    have hpow : 2 ^ (8 * (w + 1)) = 2 ^ (8 * w) * 256 := by
      rw [Nat.mul_succ, pow_add]; norm_num
    have hdiv : v / 256 < 2 ^ (8 * w) := by
      rw [Nat.div_lt_iff_lt_mul (by norm_num : 0 < 256)]
      omega
    have := ih (v / 256) hdiv
    simp only [toLeBytes, fromLeBytes, List.foldr_cons] at *
    rw [this]
    omega

theorem toLeBytes_mod (w v : Nat) : toLeBytes w (v % 2 ^ (8 * w)) = toLeBytes w v := by
  induction w generalizing v with
  | zero => rfl
  | succ w ih =>
    have hpow : 2 ^ (8 * (w + 1)) = 256 * 2 ^ (8 * w) := by
      rw [Nat.mul_succ, pow_add]; ring
    simp only [toLeBytes]
    congr 1
    · rw [hpow, Nat.mod_mod_of_dvd _ ⟨2 ^ (8 * w), rfl⟩]
    · rw [hpow, Nat.mod_mul_right_div_self, ih]

/-! ## Waveform blob format (`audio/waveform.rs`) -/

namespace Waveform

/-- `WaveformPoint` from `waveform.rs`; `peak` holds the 32-bit pattern of
the `f32` field, `low` / `mid` / `high` the `u8` fields. -/
structure WaveformPoint where
  peak : Nat
  low : Nat
  mid : Nat
  high : Nat
deriving DecidableEq, Repr

/-- `WaveformData` from `waveform.rs`. -/
structure WaveformData where
  points : List WaveformPoint
  sample_rate : Nat
  duration_ms : Nat
deriving DecidableEq, Repr

/-- Bounds imposed by the Rust field types (`f32` pattern, `u8`). -/
def WaveformPoint.WF (p : WaveformPoint) : Prop :=
  p.peak < 2 ^ 32 ∧ p.low < 256 ∧ p.mid < 256 ∧ p.high < 256

instance (p : WaveformPoint) : Decidable p.WF := by
  unfold WaveformPoint.WF; infer_instance

/-- Bounds imposed by the Rust field types (`u32` sample rate, `u64`
duration) together with the point count being representable as a `u32`. -/
def WaveformData.WF (w : WaveformData) : Prop :=
  w.sample_rate < 2 ^ 32 ∧ w.duration_ms < 2 ^ 64 ∧ w.points.length < 2 ^ 32 ∧
    ∀ p ∈ w.points, p.WF

instance (w : WaveformData) : Decidable w.WF := by
  unfold WaveformData.WF; infer_instance

/-- The 7 bytes a single point contributes to the blob. -/
def pointBytes (p : WaveformPoint) : List Nat :=
  toLeBytes 4 p.peak ++ [p.low, p.mid, p.high]

/-- `WaveformData::to_blob`: version byte, `sample_rate` (u32 LE),
`duration_ms` (u64 LE), point count (`len as u32`, LE), then the point
loop pushing 7 bytes per point. -/
def WaveformData.to_blob (w : WaveformData) : List Nat :=
  let header := 1 :: (toLeBytes 4 w.sample_rate ++ toLeBytes 8 w.duration_ms
    ++ toLeBytes 4 (w.points.length % 2 ^ 32))
  w.points.foldl (fun blob p => blob ++ pointBytes p) header

/-- The decode loop of `WaveformData::from_blob`: reads 7 bytes per point
at stride 7 (index arithmetic is in range thanks to the length check done
by the caller, so the `getD` defaults are never used). -/
def decodePoints : Nat → List Nat → List WaveformPoint
  | 0, _ => []
  | n + 1, bs =>
    ⟨fromLeBytes (bs.take 4), bs.getD 4 0, bs.getD 5 0, bs.getD 6 0⟩ ::
      decodePoints n (bs.drop 7)

/-- `WaveformData::from_blob`. -/
def WaveformData.from_blob (blob : List Nat) : Except String WaveformData :=
  if blob.length < 17 then .error "Invalid waveform BLOB: too short"
  else
    let version := blob.getD 0 0
    if version ≠ 1 then .error "Unsupported waveform version"
    else
      let sample_rate := fromLeBytes ((blob.drop 1).take 4)
      let duration_ms := fromLeBytes ((blob.drop 5).take 8)
      let points_count := fromLeBytes ((blob.drop 13).take 4)
      if blob.length ≠ 17 + points_count * 7 then
        .error "Invalid waveform BLOB: wrong length"
      else .ok ⟨decodePoints points_count (blob.drop 17), sample_rate, duration_ms⟩

/-- The blob layout as worded by spec section 6 (the comparison point for
the layout half of the format claim): byte 0 = version 1, bytes 1-4 the
sample rate (u32 LE), bytes 5-12 the duration (u64 LE), bytes 13-16 the
point count (u32 LE), then 7 bytes per point. -/
def specBlobLayout (w : WaveformData) : List Nat :=
  1 :: (toLeBytes 4 w.sample_rate ++ toLeBytes 8 w.duration_ms
    ++ toLeBytes 4 w.points.length ++ w.points.flatMap pointBytes)

theorem foldl_append_pointBytes (ps : List WaveformPoint) (acc : List Nat) :
    ps.foldl (fun blob p => blob ++ pointBytes p) acc = acc ++ ps.flatMap pointBytes := by
  induction ps generalizing acc with
  | nil => simp
  | cons p ps ih => simp [ih, List.append_assoc]

theorem to_blob_eq (w : WaveformData) :
    w.to_blob = 1 :: (toLeBytes 4 w.sample_rate ++ (toLeBytes 8 w.duration_ms
      ++ (toLeBytes 4 (w.points.length % 2 ^ 32) ++ w.points.flatMap pointBytes))) := by
  unfold WaveformData.to_blob
  rw [foldl_append_pointBytes]
  simp [List.append_assoc]

theorem pointBytes_length (p : WaveformPoint) : (pointBytes p).length = 7 := by
  simp [pointBytes, toLeBytes_length]

theorem flatMap_pointBytes_length (ps : List WaveformPoint) :
    (ps.flatMap pointBytes).length = 7 * ps.length := by
  induction ps with
  | nil => rfl
  | cons p ps ih => simp [ih, pointBytes_length, Nat.mul_succ]; omega

theorem take_of_length_eq {α : Type} {A B : List α} {n : Nat} (h : A.length = n) :
    (A ++ B).take n = A := by
  subst h; exact List.take_left A B

theorem drop_of_length_eq {α : Type} {A B : List α} {n : Nat} (h : A.length = n) :
    (A ++ B).drop n = B := by
  subst h; exact List.drop_left A B

theorem decodePoints_flatMap (ps : List WaveformPoint) (h : ∀ p ∈ ps, p.WF) :
    decodePoints ps.length (ps.flatMap pointBytes) = ps := by
  induction ps with
  | nil => rfl
  | cons p ps ih =>
    have hp : p.WF := h p (List.mem_cons_self p ps)
    have hps : ∀ q ∈ ps, q.WF := fun q hq => h q (List.mem_cons_of_mem p hq)
    have hpk : fromLeBytes (toLeBytes 4 p.peak) = p.peak :=
      fromLeBytes_toLeBytes 4 p.peak hp.1
    obtain ⟨pk, lo, mi, hi⟩ := p
    show (⟨fromLeBytes (toLeBytes 4 pk), lo, mi, hi⟩ : WaveformPoint) ::
        decodePoints ps.length (ps.flatMap pointBytes) = _
    rw [hpk, ih hps]

/-- Concrete sample value used by the blob witnesses. -/
def sampleWave : WaveformData :=
  ⟨[⟨1056964608, 100, 150, 200⟩, ⟨1061997773, 50, 100, 150⟩], 44100, 5000⟩

end Waveform

/-- C1: for every `WaveformData` whose fields satisfy the Rust type bounds
and whose point list is non-empty (and representable, i.e. fewer than
`2 ^ 32` points), `from_blob (to_blob w)` succeeds and returns a value
with identical `sample_rate`, `duration_ms`, point count and per-point
`(peak, low, mid, high)` tuples — indeed the identical value. -/
theorem claim_C1 (w : Waveform.WaveformData) (hWF : w.WF) (_hne : w.points ≠ []) :
    Waveform.WaveformData.from_blob w.to_blob = .ok w := by
  obtain ⟨hsr, hdur, hlen, hpts⟩ := hWF
  obtain ⟨ps, sr, dur⟩ := w
  simp only [Waveform.WaveformData.WF] at *
  rw [Waveform.to_blob_eq]
  set A := toLeBytes 4 sr with hA
  set B := toLeBytes 8 dur with hB
  set C := toLeBytes 4 (ps.length % 2 ^ 32) with hC
  set D := ps.flatMap Waveform.pointBytes with hD
  have hAl : A.length = 4 := toLeBytes_length 4 sr
  have hBl : B.length = 8 := toLeBytes_length 8 dur
  have hCl : C.length = 4 := toLeBytes_length 4 _
  have hDl : D.length = 7 * ps.length := Waveform.flatMap_pointBytes_length ps
  have hlen17 : (1 :: (A ++ (B ++ (C ++ D)))).length = 17 + 7 * ps.length := by
    simp [hAl, hBl, hCl, hDl]; omega
  have hmod : ps.length % 2 ^ 32 = ps.length := Nat.mod_eq_of_lt hlen
  have hcount : fromLeBytes C = ps.length := by
    rw [hC, fromLeBytes_toLeBytes 4 _ (by omega : ps.length % 2 ^ 32 < 2 ^ (8 * 4))]
    exact hmod
  unfold Waveform.WaveformData.from_blob
  rw [if_neg (by omega)]
  have hver : (1 :: (A ++ (B ++ (C ++ D)))).getD 0 0 = 1 := rfl
  rw [hver, if_neg (by simp)]
  have hdrop1 : (1 :: (A ++ (B ++ (C ++ D)))).drop 1 = A ++ (B ++ (C ++ D)) := rfl
  have hseg1 : ((1 :: (A ++ (B ++ (C ++ D)))).drop 1).take 4 = A := by
    rw [hdrop1]; exact Waveform.take_of_length_eq hAl
  have hdrop5 : (1 :: (A ++ (B ++ (C ++ D)))).drop 5 = B ++ (C ++ D) := by
    have : (1 :: (A ++ (B ++ (C ++ D)))).drop 5 = (A ++ (B ++ (C ++ D))).drop 4 := rfl
    rw [this]; exact Waveform.drop_of_length_eq hAl
  have hseg2 : ((1 :: (A ++ (B ++ (C ++ D)))).drop 5).take 8 = B := by
    rw [hdrop5]; exact Waveform.take_of_length_eq hBl
  have hdrop13 : (1 :: (A ++ (B ++ (C ++ D)))).drop 13 = C ++ D := by
    have h1 : (1 :: (A ++ (B ++ (C ++ D)))).drop 13 =
        ((1 :: (A ++ (B ++ (C ++ D)))).drop 5).drop 8 := by
      rw [List.drop_drop]
    rw [h1, hdrop5]; exact Waveform.drop_of_length_eq hBl
  have hseg3 : ((1 :: (A ++ (B ++ (C ++ D)))).drop 13).take 4 = C := by
    rw [hdrop13]; exact Waveform.take_of_length_eq hCl
  have hdrop17 : (1 :: (A ++ (B ++ (C ++ D)))).drop 17 = D := by
    have h1 : (1 :: (A ++ (B ++ (C ++ D)))).drop 17 =
        ((1 :: (A ++ (B ++ (C ++ D)))).drop 13).drop 4 := by
      rw [List.drop_drop]
    rw [h1, hdrop13]; exact Waveform.drop_of_length_eq hCl
  rw [hseg1, hseg2, hseg3, hcount, hdrop17]
  rw [if_neg (by omega)]
  rw [hA, fromLeBytes_toLeBytes 4 sr (by omega : sr < 2 ^ (8 * 4)),
      hB, fromLeBytes_toLeBytes 8 dur (by omega : dur < 2 ^ (8 * 8)),
      hD, Waveform.decodePoints_flatMap ps hpts]

/-- C1 witness: the round trip at a concrete two-point waveform. -/
theorem claim_C1_witness :
    Waveform.sampleWave.WF ∧ Waveform.sampleWave.points ≠ [] ∧
      Waveform.WaveformData.from_blob Waveform.sampleWave.to_blob = .ok Waveform.sampleWave :=
  ⟨by decide, by decide, claim_C1 Waveform.sampleWave (by decide) (by decide)⟩

/-- C2: `to_blob` produces exactly the layout of spec section 6 (version
byte 1, sample rate u32 LE, duration u64 LE, point count u32 LE, then 7
bytes per point), and `from_blob` errors on every byte sequence whose
version byte is not 1 or whose total length is not exactly
`17 + 7 * point_count` for the encoded point count. -/
theorem claim_C2 :
    (∀ w : Waveform.WaveformData, w.to_blob = Waveform.specBlobLayout w)
    ∧ (∀ blob : List Nat, blob.getD 0 0 ≠ 1 →
        ∃ e, Waveform.WaveformData.from_blob blob = .error e)
    ∧ (∀ blob : List Nat, blob.length ≠ 17 + 7 * fromLeBytes ((blob.drop 13).take 4) →
        ∃ e, Waveform.WaveformData.from_blob blob = .error e) := by
  refine ⟨fun w => ?_, fun blob hver => ?_, fun blob hlen => ?_⟩
  · rw [Waveform.to_blob_eq, Waveform.specBlobLayout]
    rw [show (2 : Nat) ^ 32 = 2 ^ (8 * 4) by norm_num, toLeBytes_mod]
    simp [List.append_assoc]
  · unfold Waveform.WaveformData.from_blob
    by_cases h17 : blob.length < 17
    · rw [if_pos h17]; exact ⟨_, rfl⟩
    · rw [if_neg h17, if_pos hver]; exact ⟨_, rfl⟩
  · unfold Waveform.WaveformData.from_blob
    by_cases h17 : blob.length < 17
    · rw [if_pos h17]; exact ⟨_, rfl⟩
    · rw [if_neg h17]
      by_cases hv : blob.getD 0 0 ≠ 1
      · rw [if_pos hv]; exact ⟨_, rfl⟩
      · rw [if_neg hv, if_pos (by omega)]; exact ⟨_, rfl⟩

/-- C2 witness: rejection at a concrete wrong-version blob and at a
concrete wrong-length blob. -/
theorem claim_C2_witness :
    (∃ e, Waveform.WaveformData.from_blob [5] = .error e)
    ∧ (∃ e, Waveform.WaveformData.from_blob (List.replicate 18 0) = .error e) :=
  ⟨claim_C2.2.1 [5] (by decide), claim_C2.2.2 (List.replicate 18 0) (by decide)⟩

/-! ## Streaming decoder seek (`audio/decoder.rs`) -/

namespace Decoder

/-- The numeric state of `AudioDecoder` (the symphonia format reader and
codec handles are external). -/
structure AudioDecoder where
  sample_rate : Nat
  duration_ms : Nat
  current_position_ms : Nat
deriving DecidableEq, Repr

/-- The clamping computation at the top of `AudioDecoder::seek`: when the
duration is known (`duration_ms > 0`) the requested position is clamped to
`[0, duration - 100]` (to `0` when the duration is at most the 100 ms
margin); when the duration is unknown (`0`) the position is used as
requested. -/
def clampSeekPosition (duration_ms position_ms : Nat) : Nat :=
  if 0 < duration_ms then
    let margin_ms := 100
    let max_seek_position := if margin_ms < duration_ms then duration_ms - margin_ms else 0
    min position_ms max_seek_position
  else position_ms

/-- The success path of `AudioDecoder::seek`: after the external
`format_reader.seek` succeeds and the codec state is reset,
`current_position_ms` is set to the clamped position. -/
def AudioDecoder.seek (d : AudioDecoder) (position_ms : Nat) : AudioDecoder :=
  ⟨d.sample_rate, d.duration_ms, clampSeekPosition d.duration_ms position_ms⟩

end Decoder

/-- C3 counterexample: a decoder whose duration is reported as 0 ms
(unknown duration) has `duration ≤ 100 ms`, so the claim requires the
effective seek target to become 0; the code skips clamping entirely and
keeps the requested 500 ms. -/
theorem claim_C3_counterexample :
    ((Decoder.AudioDecoder.seek ⟨44100, 0, 0⟩ 500).current_position_ms = 500)
    ∧ (0 : Nat) ≤ 100 ∧ (500 : Nat) ≠ 0 := by
  decide

/-- C3 (amended): when the decoder knows its duration (`duration_ms > 0`),
`seek` clamps the target to `[0, duration - 100]` — the minimum of the
request and `duration - 100` when the duration exceeds the margin, and 0
when `duration ≤ 100` — and on success the reported position equals the
clamped target; when the duration is unknown (reported as 0) the request
is used unclamped. -/
theorem claim_C3 (d : Decoder.AudioDecoder) (p : Nat) :
    ((d.seek p).current_position_ms = Decoder.clampSeekPosition d.duration_ms p)
    ∧ (0 < d.duration_ms → 100 < d.duration_ms →
        Decoder.clampSeekPosition d.duration_ms p = min p (d.duration_ms - 100))
    ∧ (0 < d.duration_ms → d.duration_ms ≤ 100 →
        Decoder.clampSeekPosition d.duration_ms p = 0)
    ∧ (d.duration_ms = 0 → Decoder.clampSeekPosition d.duration_ms p = p) := by
  refine ⟨rfl, fun h0 h100 => ?_, fun h0 h100 => ?_, fun h0 => ?_⟩
  · rw [Decoder.clampSeekPosition, if_pos h0]
    simp only [if_pos h100]
  · rw [Decoder.clampSeekPosition, if_pos h0]
    simp only [if_neg (by omega : ¬ 100 < d.duration_ms)]
    omega
  · rw [Decoder.clampSeekPosition, if_neg (by omega)]

/-- C3 witness: the amended statement at a concrete decoder with a 60 s
duration and a past-the-end request, and at a concrete decoder with a
50 ms duration. -/
theorem claim_C3_witness :
    ((Decoder.AudioDecoder.seek ⟨44100, 60000, 0⟩ 120000).current_position_ms =
      Decoder.clampSeekPosition 60000 120000)
    ∧ Decoder.clampSeekPosition 60000 120000 = min 120000 (60000 - 100)
    ∧ Decoder.clampSeekPosition 50 120000 = 0 :=
  ⟨(claim_C3 ⟨44100, 60000, 0⟩ 120000).1,
   (claim_C3 ⟨44100, 60000, 0⟩ 120000).2.1 (by decide) (by decide),
   (claim_C3 ⟨44100, 50, 0⟩ 120000).2.2.1 (by decide) (by decide)⟩

/-! ## Mono decode result (`audio/decoder.rs`) and BPM detection (`audio/bpm.rs`) -/

/-- `MonoAudio` from `decoder.rs`: mono `f32` samples (modelled over `ℚ`),
native sample rate, duration. -/
structure MonoAudio where
  samples : List ℚ
  sample_rate : Nat
  duration_ms : Nat

namespace Bpm

/-- `BpmResult` from `bpm.rs`. -/
structure BpmResult where
  bpm : ℚ
  confidence : ℚ
deriving DecidableEq, Repr

/-- `f64::clamp(lo, hi)` for NaN-free values. -/
def clampQ (x lo hi : ℚ) : ℚ := min (max x lo) hi

/-- `detect_bpm_from_samples`. The aubio `Tempo` tracker is an external
library: the frame loop only feeds it samples, and its final outputs enter
here as the `rawBpm` / `rawConfidence` parameters (`tempo.get_bpm()` and
`tempo.get_confidence()`). Everything after those calls is repository
logic and is embedded exactly: the empty-input error, the confidence
clamp, the inconclusive `{bpm: 0, confidence: 0}` result for raw estimates
outside `(0, 40..300]`, and the octave correction into the 80-200 band. -/
def detect_bpm_from_samples (audio : MonoAudio) (rawBpm rawConfidence : ℚ) :
    Except String BpmResult :=
  if audio.samples.isEmpty then .error "No audio samples to analyze"
  else
    let confidence := clampQ rawConfidence 0 1
    if rawBpm ≤ 0 ∨ rawBpm < 40 ∨ 300 < rawBpm then .ok ⟨0, 0⟩
    else
      let bpm :=
        if 40 ≤ rawBpm ∧ rawBpm < 80 then rawBpm * 2
        else if 200 < rawBpm ∧ rawBpm ≤ 300 then rawBpm / 2
        else rawBpm
      .ok ⟨bpm, confidence⟩

end Bpm

/-- C4: the tempo estimator errors on empty sample input, and for every
non-empty input whose raw aubio estimate is `≤ 0` or outside `[40, 300]`
it returns the defined inconclusive result `{bpm: 0, confidence: 0}` as a
success value, never as an error. -/
theorem claim_C4 :
    (∀ (audio : MonoAudio) (rawBpm rawConfidence : ℚ), audio.samples = [] →
        ∃ e, Bpm.detect_bpm_from_samples audio rawBpm rawConfidence = .error e)
    ∧ (∀ (audio : MonoAudio) (rawBpm rawConfidence : ℚ), audio.samples ≠ [] →
        (rawBpm ≤ 0 ∨ rawBpm < 40 ∨ 300 < rawBpm) →
        Bpm.detect_bpm_from_samples audio rawBpm rawConfidence = .ok ⟨0, 0⟩) := by
  constructor
  · intro audio rawBpm rawConfidence hempty
    unfold Bpm.detect_bpm_from_samples
    rw [if_pos (List.isEmpty_iff.mpr hempty)]
    exact ⟨_, rfl⟩
  · intro audio rawBpm rawConfidence hne hraw
    unfold Bpm.detect_bpm_from_samples
    rw [if_neg (by simpa [List.isEmpty_iff] using hne), if_pos hraw]

/-- C4 witness: the empty-input error at a concrete empty buffer, and the
inconclusive success at a concrete non-empty buffer with raw estimate
350 BPM. -/
theorem claim_C4_witness :
    (∃ e, Bpm.detect_bpm_from_samples ⟨[], 44100, 0⟩ 120 1 = .error e)
    ∧ Bpm.detect_bpm_from_samples ⟨[1], 44100, 0⟩ 350 1 = .ok ⟨0, 0⟩ :=
  ⟨claim_C4.1 ⟨[], 44100, 0⟩ 120 1 rfl,
   claim_C4.2 ⟨[1], 44100, 0⟩ 350 1 (by decide) (by norm_num)⟩

/-- C5: for raw estimates in the accepted range, the reported BPM is
doubled on `[40, 80)`, halved on `(200, 300]`, and unchanged on
`[80, 200]`. -/
theorem claim_C5 (audio : MonoAudio) (rawBpm rawConfidence : ℚ)
    (hne : audio.samples ≠ []) :
    ((40 ≤ rawBpm ∧ rawBpm < 80) →
      ∃ r, Bpm.detect_bpm_from_samples audio rawBpm rawConfidence = .ok r ∧
        r.bpm = rawBpm * 2)
    ∧ ((200 < rawBpm ∧ rawBpm ≤ 300) →
      ∃ r, Bpm.detect_bpm_from_samples audio rawBpm rawConfidence = .ok r ∧
        r.bpm = rawBpm / 2)
    ∧ ((80 ≤ rawBpm ∧ rawBpm ≤ 200) →
      ∃ r, Bpm.detect_bpm_from_samples audio rawBpm rawConfidence = .ok r ∧
        r.bpm = rawBpm) := by
  have hnotempty : ¬ audio.samples.isEmpty := by simpa [List.isEmpty_iff] using hne
  refine ⟨fun hlow => ?_, fun hhigh => ?_, fun hmid => ?_⟩
  · unfold Bpm.detect_bpm_from_samples
    rw [if_neg hnotempty, if_neg (by push_neg; refine ⟨by linarith, by linarith, by linarith⟩),
      if_pos hlow]
    exact ⟨_, rfl, rfl⟩
  · unfold Bpm.detect_bpm_from_samples
    rw [if_neg hnotempty, if_neg (by push_neg; refine ⟨by linarith, by linarith, by linarith⟩),
      if_neg (by push_neg; intro h; linarith), if_pos hhigh]
    exact ⟨_, rfl, rfl⟩
  · unfold Bpm.detect_bpm_from_samples
    rw [if_neg hnotempty, if_neg (by push_neg; refine ⟨by linarith, by linarith, by linarith⟩),
      if_neg (by push_neg; intro h; linarith), if_neg (by push_neg; intro h; linarith)]
    exact ⟨_, rfl, rfl⟩

/-- C5 witness: octave correction at raw estimates 60 (doubled to 120),
250 (halved to 125) and 120 (unchanged). -/
theorem claim_C5_witness :
    (∃ r, Bpm.detect_bpm_from_samples ⟨[1], 44100, 0⟩ 60 1 = .ok r ∧ r.bpm = 60 * 2)
    ∧ (∃ r, Bpm.detect_bpm_from_samples ⟨[1], 44100, 0⟩ 250 1 = .ok r ∧ r.bpm = 250 / 2)
    ∧ (∃ r, Bpm.detect_bpm_from_samples ⟨[1], 44100, 0⟩ 120 1 = .ok r ∧ r.bpm = 120) :=
  ⟨(claim_C5 ⟨[1], 44100, 0⟩ 60 1 (by decide)).1 (by norm_num),
   (claim_C5 ⟨[1], 44100, 0⟩ 250 1 (by decide)).2.1 (by norm_num),
   (claim_C5 ⟨[1], 44100, 0⟩ 120 1 (by decide)).2.2 (by norm_num)⟩

/-! ## Key detection (`audio/key.rs`) -/

namespace Key

/-- FFT window size for chromagram computation (`FFT_SIZE`). -/
def FFT_SIZE : Nat := 4096

/-- Hop between consecutive FFT frames (`HOP_SIZE`). -/
def HOP_SIZE : Nat := 2048

/-- The external / transcendental operations used by `key.rs`, passed in
explicitly: `hann size i` is the Hanning coefficient
`0.5 * (1 - cos(2*pi*i/(size-1)))`, `fftNormSq frame bin` is
`buffer[bin].norm_sqr()` after the rustfft in-place FFT of `frame`,
`binToPitchClass sample_rate bin` is the `log2`-based 12-TET map of
`bin_to_pitch_class` (`None` outside the 65-2000 Hz range, otherwise a
pitch class below 12 by construction of the double `% 12`), and `sqrtQ`
is `f64::sqrt`. -/
structure DspEnv where
  hann : Nat → Nat → ℚ
  fftNormSq : List ℚ → Nat → ℚ
  binToPitchClass : Nat → Nat → Option (Fin 12)
  sqrtQ : ℚ → ℚ

/-- Shaath major profile (decimal literals as exact rationals). -/
def SHAATH_MAJOR : Fin 12 → ℚ :=
  ![66/10, 2, 35/10, 23/10, 46/10, 4, 25/10, 52/10, 24/10, 37/10, 23/10, 32/10]

/-- Shaath minor profile. -/
def SHAATH_MINOR : Fin 12 → ℚ :=
  ![65/10, 27/10, 35/10, 54/10, 26/10, 35/10, 25/10, 47/10, 4, 27/10, 34/10, 32/10]

/-- `MAJOR_NAMES`. -/
def MAJOR_NAMES : Fin 12 → String :=
  !["C", "Db", "D", "Eb", "E", "F", "F#", "G", "Ab", "A", "Bb", "B"]

/-- `MINOR_NAMES`. -/
def MINOR_NAMES : Fin 12 → String :=
  !["Cm", "C#m", "Dm", "Ebm", "Em", "Fm", "F#m", "Gm", "G#m", "Am", "Bbm", "Bm"]

/-- `CAMELOT_MAJOR` (indexed by pitch class, 0 = C). -/
def CAMELOT_MAJOR : Fin 12 → String :=
  !["8B", "3B", "10B", "5B", "12B", "7B", "2B", "9B", "4B", "11B", "6B", "1B"]

/-- `CAMELOT_MINOR`. -/
def CAMELOT_MINOR : Fin 12 → String :=
  !["5A", "12A", "7A", "2A", "9A", "4A", "11A", "6A", "1A", "8A", "3A", "10A"]

/-- `OPENKEY_MAJOR`. -/
def OPENKEY_MAJOR : Fin 12 → String :=
  !["8d", "3d", "10d", "5d", "12d", "7d", "2d", "9d", "4d", "11d", "6d", "1d"]

/-- `OPENKEY_MINOR`. -/
def OPENKEY_MINOR : Fin 12 → String :=
  !["5m", "12m", "7m", "2m", "9m", "4m", "11m", "6m", "1m", "8m", "3m", "10m"]

/-- `KeyResult` from `key.rs`. -/
structure KeyResult where
  camelot : String
  open_key : String
  musical_key : String
  confidence : ℚ
deriving DecidableEq, Repr

/-- One windowed FFT input frame: the slice `samples[start..start+4096]`
multiplied pointwise by the Hanning window. -/
def frameBuffer (env : DspEnv) (samples : List ℚ) (start : Nat) : List ℚ :=
  List.zipWith (fun s i => s * env.hann FFT_SIZE i) ((samples.drop start).take FFT_SIZE)
    (List.range FFT_SIZE)

/-- `num_frames = (len.saturating_sub(FFT_SIZE)) / HOP_SIZE + 1`. -/
def numFrames (len : Nat) : Nat := (len - FFT_SIZE) / HOP_SIZE + 1

/-- The accumulation loop of `compute_chromagram`: for each frame that
fits (`end <= len`, the loop breaks otherwise) and each bin in
`0..FFT_SIZE/2+1` mapped to a pitch class, add the squared magnitude. -/
def rawChromagram (env : DspEnv) (samples : List ℚ) (sample_rate : Nat) (pc : Fin 12) : ℚ :=
  ∑ f ∈ Finset.range (numFrames samples.length),
    if f * HOP_SIZE + FFT_SIZE ≤ samples.length then
      ∑ bin ∈ Finset.range (FFT_SIZE / 2 + 1),
        if env.binToPitchClass sample_rate bin = some pc then
          env.fftNormSq (frameBuffer env samples (f * HOP_SIZE)) bin
        else 0
    else 0

/-- The normalization step of `compute_chromagram`: divide by the total
when it is positive, otherwise leave the (all-zero) chromagram as is. -/
def chromagramOf (env : DspEnv) (samples : List ℚ) (sample_rate : Nat) : Fin 12 → ℚ :=
  let raw := rawChromagram env samples sample_rate
  let total := ∑ pc : Fin 12, raw pc
  if 0 < total then fun pc => raw pc / total else raw

/-- `compute_chromagram` (its `Result` is always `Ok`). -/
def compute_chromagram (env : DspEnv) (samples : List ℚ) (sample_rate : Nat) :
    Except String (Fin 12 → ℚ) :=
  .ok (chromagramOf env samples sample_rate)

/-- `pearson_correlation` with the profile rotated by `root` semitones;
`sq` models `f64::sqrt` (applied to the product under the square root),
and the `1e-10` degenerate-denominator guard returns 0. -/
def pearson_correlation (chromagram profile : Fin 12 → ℚ) (root : Fin 12) (sq : ℚ → ℚ) : ℚ :=
  let n : ℚ := 12
  let sum_x := ∑ i : Fin 12, chromagram (root + i)
  let sum_y := ∑ i : Fin 12, profile i
  let sum_xy := ∑ i : Fin 12, chromagram (root + i) * profile i
  let sum_x2 := ∑ i : Fin 12, chromagram (root + i) * chromagram (root + i)
  let sum_y2 := ∑ i : Fin 12, profile i * profile i
  let numerator := n * sum_xy - sum_x * sum_y
  let denominator := sq ((n * sum_x2 - sum_x * sum_x) * (n * sum_y2 - sum_y * sum_y))
  if denominator < 1 / 10 ^ 10 then 0 else numerator / denominator

/-- The running best / second-best state of `match_key_profiles`;
`none` models the `f64::NEG_INFINITY` initial values. -/
structure MatchState where
  best_key : Fin 12
  best_is_minor : Bool
  best : Option ℚ
  second : Option ℚ
deriving DecidableEq, Repr

/-- `corr > best` where `best` may still be `NEG_INFINITY`. -/
def fGt (corr : ℚ) : Option ℚ → Bool
  | none => true
  | some v => decide (v < corr)

/-- One iteration of the inner candidate loop of `match_key_profiles`. -/
def stepCandidate (s : MatchState) (c : Fin 12 × Bool × ℚ) : MatchState :=
  if fGt c.2.2 s.best then ⟨c.1, c.2.1, some c.2.2, s.best⟩
  else if fGt c.2.2 s.second then ⟨s.best_key, s.best_is_minor, s.best, some c.2.2⟩
  else s

/-- The 24 candidates in loop order: for each root, the major correlation
then the minor correlation. -/
def candList (chromagram : Fin 12 → ℚ) (sq : ℚ → ℚ) : List (Fin 12 × Bool × ℚ) :=
  (List.finRange 12).flatMap (fun root =>
    [(root, false, pearson_correlation chromagram SHAATH_MAJOR root sq),
     (root, true, pearson_correlation chromagram SHAATH_MINOR root sq)])

/-- `match_key_profiles`. -/
def match_key_profiles (chromagram : Fin 12 → ℚ) (sq : ℚ → ℚ) : MatchState :=
  (candList chromagram sq).foldl stepCandidate ⟨0, false, none, none⟩

/-- Step 4 of `detect_key_from_samples`: the gap/strength confidence blend
(`0.7` / `0.3` / gap scale `8` as exact rationals), zero when the best
correlation is not positive. -/
def keyConfidence (best_corr second_best_corr : ℚ) : ℚ :=
  if 0 < best_corr then
    let gap := best_corr - second_best_corr
    let gap_score := Bpm.clampQ (gap * 8) 0 1
    let strength := Bpm.clampQ best_corr 0 1
    Bpm.clampQ (gap_score * (7/10) + strength * (3/10)) 0 1
  else 0

/-- `detect_key_from_samples`: empty and too-short guards, chromagram,
profile matching, notation lookup, and the confidence blend. The `getD 0`
reads of the best / second-best correlations stand for the plain `f64`
reads; after 24 candidates both are always `some`. -/
def detect_key_from_samples (env : DspEnv) (audio : MonoAudio) : Except String KeyResult :=
  if audio.samples.isEmpty then .error "No audio samples to analyze"
  else if audio.samples.length < FFT_SIZE then .error "Audio too short for key detection"
  else
    match compute_chromagram env audio.samples audio.sample_rate with
    | .error e => .error e
    | .ok chromagram =>
      let s := match_key_profiles chromagram env.sqrtQ
      let camelot := if s.best_is_minor then CAMELOT_MINOR s.best_key else CAMELOT_MAJOR s.best_key
      let open_key := if s.best_is_minor then OPENKEY_MINOR s.best_key else OPENKEY_MAJOR s.best_key
      let musical_key := if s.best_is_minor then MINOR_NAMES s.best_key else MAJOR_NAMES s.best_key
      let confidence := keyConfidence (s.best.getD 0) (s.second.getD 0)
      .ok ⟨camelot, open_key, musical_key, confidence⟩

/-- All 24 Camelot codes, majors then minors. -/
def camelotCodes : List String :=
  (List.finRange 12).map CAMELOT_MAJOR ++ (List.finRange 12).map CAMELOT_MINOR

/-- The 24 strings matching the pattern: a number in `[1, 12]` followed by
`A` or `B`. -/
def patternCodes : List String :=
  (List.range 12).flatMap (fun k => [toString (k + 1) ++ "A", toString (k + 1) ++ "B"])

/-- The numeric part of a Camelot code. -/
def camelotNumberPart (s : String) : String := s.dropRight 1

end Key

/-- C7: the 24 Camelot codes are pairwise distinct, each matches the
pattern number-in-[1,12] followed by A or B (with minors suffixed A and
majors suffixed B), and for every pitch class the relative major/minor
pair (the minor three semitones below the major) shares its Camelot
number. -/
theorem claim_C7 :
    Key.camelotCodes.Nodup
    ∧ (∀ s ∈ Key.camelotCodes, s ∈ Key.patternCodes)
    ∧ (∀ pc : Fin 12, (Key.CAMELOT_MAJOR pc).takeRight 1 = "B"
        ∧ (Key.CAMELOT_MINOR pc).takeRight 1 = "A")
    ∧ (∀ pc : Fin 12, Key.camelotNumberPart (Key.CAMELOT_MAJOR pc) =
        Key.camelotNumberPart (Key.CAMELOT_MINOR (pc + 9))) := by
  decide

namespace Key

theorem zipWith_window_zero (w : Nat → ℚ) (l : List ℚ) (idx : List Nat)
    (h : ∀ x ∈ l, x = 0) :
    ∀ y ∈ List.zipWith (fun s i => s * w i) l idx, y = 0 := by
  induction l generalizing idx with
  | nil => intro y hy; simp at hy
  | cons a l ih =>
    cases idx with
    | nil => intro y hy; simp at hy
    | cons i idx =>
      intro y hy
      rw [List.zipWith_cons_cons] at hy
      rcases List.mem_cons.mp hy with h1 | h2
      · rw [h1, h a (List.mem_cons_self a l), zero_mul]
      · exact ih idx (fun x hx => h x (List.mem_cons_of_mem a hx)) y h2

theorem frameBuffer_zero (env : DspEnv) (samples : List ℚ) (start : Nat)
    (h : ∀ x ∈ samples, x = 0) :
    ∀ y ∈ frameBuffer env samples start, y = 0 := by
  intro y hy
  refine zipWith_window_zero (env.hann FFT_SIZE) _ _ ?_ y hy
  intro x hx
  exact h x (List.drop_subset start samples (List.take_subset FFT_SIZE _ hx))

theorem rawChromagram_zero (env : DspEnv) (samples : List ℚ) (sample_rate : Nat)
    (hz : ∀ x ∈ samples, x = 0)
    (hfft : ∀ frame, (∀ x ∈ frame, x = 0) → ∀ bin, env.fftNormSq frame bin = 0) :
    rawChromagram env samples sample_rate = fun _ => 0 := by
  funext pc
  unfold rawChromagram
  refine Finset.sum_eq_zero fun f _ => ?_
  split
  · refine Finset.sum_eq_zero fun bin _ => ?_
    split
    · exact hfft _ (frameBuffer_zero env samples _ hz) bin
    · rfl
  · rfl

theorem chromagramOf_zero (env : DspEnv) (samples : List ℚ) (sample_rate : Nat)
    (hz : ∀ x ∈ samples, x = 0)
    (hfft : ∀ frame, (∀ x ∈ frame, x = 0) → ∀ bin, env.fftNormSq frame bin = 0) :
    chromagramOf env samples sample_rate = fun _ => 0 := by
  unfold chromagramOf
  rw [rawChromagram_zero env samples sample_rate hz hfft]
  simp

theorem pearson_zero (sq : ℚ → ℚ) (hsq : sq 0 = 0) (profile : Fin 12 → ℚ) (root : Fin 12) :
    pearson_correlation (fun _ => 0) profile root sq = 0 := by
  unfold pearson_correlation
  simp [hsq]

theorem match_zero (sq : ℚ → ℚ) (hsq : sq 0 = 0) :
    match_key_profiles (fun _ => 0) sq = ⟨0, false, some 0, some 0⟩ := by
  unfold match_key_profiles candList
  simp only [pearson_zero sq hsq]
  decide

theorem silent_detect_key (env : DspEnv) (audio : MonoAudio)
    (hz : ∀ x ∈ audio.samples, x = 0)
    (hlen : 4096 ≤ audio.samples.length)
    (hfft : ∀ frame, (∀ x ∈ frame, x = 0) → ∀ bin, env.fftNormSq frame bin = 0)
    (hsq : env.sqrtQ 0 = 0) :
    detect_key_from_samples env audio = .ok ⟨"8B", "8d", "C", 0⟩ := by
  have hne : ¬ audio.samples.isEmpty = true := by
    simp only [List.isEmpty_iff]
    intro hcon
    rw [hcon] at hlen
    simp at hlen
  have hshort : ¬ audio.samples.length < FFT_SIZE := by
    simp only [FFT_SIZE]
    omega
  unfold detect_key_from_samples
  rw [if_neg hne, if_neg hshort]
  simp only [compute_chromagram]
  rw [chromagramOf_zero env audio.samples audio.sample_rate hz hfft,
    match_zero env.sqrtQ hsq]
  rfl

/-- Environment instance used by the key-detection witnesses: a zero
window, the zero spectrum, the empty bin map and the zero square root. -/
def sampleEnv : DspEnv := ⟨fun _ _ => 0, fun _ _ => 0, fun _ _ => none, fun _ => 0⟩

end Key

/-- Ten seconds worth of the shortest admissible silent input: 4096 zero
samples. -/
def silentAudio : MonoAudio := ⟨List.replicate 4096 0, 44100, 93⟩

/-- C6: the key estimator returns a hard error for every input shorter
than one 4096-sample analysis window (in particular for every empty
input), and for every input of at least one window it always returns a
`KeyResult` successfully. -/
theorem claim_C6 :
    (∀ (env : Key.DspEnv) (audio : MonoAudio), audio.samples.length < 4096 →
        ∃ e, Key.detect_key_from_samples env audio = .error e)
    ∧ (∀ (env : Key.DspEnv) (audio : MonoAudio), 4096 ≤ audio.samples.length →
        ∃ r, Key.detect_key_from_samples env audio = .ok r) := by
  constructor
  · intro env audio h
    unfold Key.detect_key_from_samples
    by_cases he : audio.samples.isEmpty
    · rw [if_pos he]; exact ⟨_, rfl⟩
    · rw [if_neg he, if_pos (by simpa [Key.FFT_SIZE] using h)]
      exact ⟨_, rfl⟩
  · intro env audio h
    unfold Key.detect_key_from_samples
    rw [if_neg (by simp only [List.isEmpty_iff]; intro hcon; rw [hcon] at h; simp at h),
      if_neg (by simp only [Key.FFT_SIZE]; omega)]
    exact ⟨_, rfl⟩

/-- C6 witness: errors at an empty input and at a 100-sample input,
success at a 4096-sample input. -/
theorem claim_C6_witness :
    (∃ e, Key.detect_key_from_samples Key.sampleEnv ⟨[], 44100, 0⟩ = .error e)
    ∧ (∃ e, Key.detect_key_from_samples Key.sampleEnv ⟨List.replicate 100 0, 44100, 2⟩ =
        .error e)
    ∧ (∃ r, Key.detect_key_from_samples Key.sampleEnv silentAudio = .ok r) :=
  ⟨claim_C6.1 Key.sampleEnv ⟨[], 44100, 0⟩ (by decide),
   claim_C6.1 Key.sampleEnv ⟨List.replicate 100 0, 44100, 2⟩ (by decide),
   claim_C6.2 Key.sampleEnv silentAudio (List.length_replicate 4096 (0 : ℚ)).ge⟩

theorem clampQ_mem (x lo hi : ℚ) (h : lo ≤ hi) :
    lo ≤ Bpm.clampQ x lo hi ∧ Bpm.clampQ x lo hi ≤ hi := by
  unfold Bpm.clampQ
  exact ⟨le_min (le_max_right x lo) h, min_le_right _ _⟩

theorem Key.keyConfidence_mem (b s2 : ℚ) :
    0 ≤ Key.keyConfidence b s2 ∧ Key.keyConfidence b s2 ≤ 1 := by
  unfold Key.keyConfidence
  split
  · exact clampQ_mem _ 0 1 (by norm_num)
  · norm_num

/-- C8: whenever the tempo estimator or the key estimator returns a
result, its confidence field lies in `[0, 1]` (over the NaN-free rational
model, for arbitrary raw detector outputs and environments). -/
theorem claim_C8 :
    (∀ (audio : MonoAudio) (rawBpm rawConfidence : ℚ) (r : Bpm.BpmResult),
        Bpm.detect_bpm_from_samples audio rawBpm rawConfidence = .ok r →
        0 ≤ r.confidence ∧ r.confidence ≤ 1)
    ∧ (∀ (env : Key.DspEnv) (audio : MonoAudio) (r : Key.KeyResult),
        Key.detect_key_from_samples env audio = .ok r →
        0 ≤ r.confidence ∧ r.confidence ≤ 1) := by
  constructor
  · intro audio rawBpm rawConfidence r h
    unfold Bpm.detect_bpm_from_samples at h
    split at h
    · exact Except.noConfusion h
    · split at h
      · rw [Except.ok.injEq] at h
        rw [← h]
        norm_num
      · rw [Except.ok.injEq] at h
        rw [← h]
        exact clampQ_mem rawConfidence 0 1 (by norm_num)
  · intro env audio r h
    unfold Key.detect_key_from_samples at h
    split at h
    · exact Except.noConfusion h
    · split at h
      · exact Except.noConfusion h
      · simp only [Key.compute_chromagram, Except.ok.injEq] at h
        rw [← h]
        exact Key.keyConfidence_mem _ _

theorem sampleEnv_silent_eval :
    Key.detect_key_from_samples Key.sampleEnv silentAudio = .ok ⟨"8B", "8d", "C", 0⟩ :=
  Key.silent_detect_key Key.sampleEnv silentAudio (fun _ hx => List.eq_of_mem_replicate hx)
    (List.length_replicate 4096 (0 : ℚ)).ge (fun _ _ _ => rfl) rfl

/-- C8 witness: a successful tempo result (raw 120 BPM, raw confidence 5
clamped to 1) and a successful key result (silence) both have confidence
inside `[0, 1]`. -/
theorem claim_C8_witness :
    (0 ≤ (Bpm.BpmResult.mk 120 1).confidence ∧ (Bpm.BpmResult.mk 120 1).confidence ≤ 1)
    ∧ (0 ≤ (Key.KeyResult.mk "8B" "8d" "C" 0).confidence
        ∧ (Key.KeyResult.mk "8B" "8d" "C" 0).confidence ≤ 1) :=
  ⟨claim_C8.1 ⟨[1], 44100, 0⟩ 120 5 ⟨120, 1⟩ rfl,
   claim_C8.2 Key.sampleEnv silentAudio ⟨"8B", "8d", "C", 0⟩ sampleEnv_silent_eval⟩

/-- C9: for every all-zero input of at least one analysis window (and any
FFT model that sends zero frames to zero spectra, with `sqrt 0 = 0`), the
key estimator succeeds rather than erroring: the chromagram is flat
(all-zero), every Pearson correlation against the 24 rotated profiles
evaluates to 0 through the degenerate-denominator guard, and the returned
confidence is 0 — in particular below 0.5. -/
theorem claim_C9 (env : Key.DspEnv) (audio : MonoAudio)
    (hz : ∀ x ∈ audio.samples, x = 0)
    (hlen : 4096 ≤ audio.samples.length)
    (hfft : ∀ frame, (∀ x ∈ frame, x = 0) → ∀ bin, env.fftNormSq frame bin = 0)
    (hsq : env.sqrtQ 0 = 0) :
    (Key.chromagramOf env audio.samples audio.sample_rate = fun _ => 0)
    ∧ (∀ root : Fin 12,
        Key.pearson_correlation (Key.chromagramOf env audio.samples audio.sample_rate)
          Key.SHAATH_MAJOR root env.sqrtQ = 0
        ∧ Key.pearson_correlation (Key.chromagramOf env audio.samples audio.sample_rate)
          Key.SHAATH_MINOR root env.sqrtQ = 0)
    ∧ (∃ r, Key.detect_key_from_samples env audio = .ok r ∧
        r.confidence = 0 ∧ r.confidence < 1 / 2) := by
  have hch := Key.chromagramOf_zero env audio.samples audio.sample_rate hz hfft
  refine ⟨hch, fun root => ?_, ?_⟩
  · rw [hch]
    exact ⟨Key.pearson_zero env.sqrtQ hsq _ root, Key.pearson_zero env.sqrtQ hsq _ root⟩
  · exact ⟨⟨"8B", "8d", "C", 0⟩, Key.silent_detect_key env audio hz hlen hfft hsq, rfl,
      by norm_num⟩

/-- C9 witness: the silent-input conclusion at the concrete 4096-sample
zero buffer and the concrete witness environment. -/
theorem claim_C9_witness :
    (Key.chromagramOf Key.sampleEnv silentAudio.samples silentAudio.sample_rate = fun _ => 0)
    ∧ (∃ r, Key.detect_key_from_samples Key.sampleEnv silentAudio = .ok r ∧
        r.confidence = 0 ∧ r.confidence < 1 / 2) :=
  ⟨(claim_C9 Key.sampleEnv silentAudio (fun _ hx => List.eq_of_mem_replicate hx)
      (List.length_replicate 4096 (0 : ℚ)).ge (fun _ _ _ => rfl) rfl).1,
   (claim_C9 Key.sampleEnv silentAudio (fun _ hx => List.eq_of_mem_replicate hx)
      (List.length_replicate 4096 (0 : ℚ)).ge (fun _ _ _ => rfl) rfl).2.2⟩

/-! ## Waveform generation (`audio/waveform.rs`, `generate_waveform` /
`compute_frequency_bands`) -/

namespace Waveform

/-- The external / transcendental operations used by `generate_waveform`:
`hann size i` is the window coefficient
`0.5 - 0.5 * cos(2*pi*i/(size-1))`, `fftMag buffer bin` the magnitude
`sqrt(re^2 + im^2)` of the rustfft output, and `sqrtQ` is `powf(0.5)`. -/
structure WaveEnv where
  hann : Nat → Nat → ℚ
  fftMag : List ℚ → Nat → ℚ
  sqrtQ : ℚ → ℚ

/-- Fuel-driven doubling loop (structural recursion so that it
evaluates). -/
def nextPow2Loop (n : Nat) : Nat → Nat → Nat
  | 0, p => p
  | fuel + 1, p => if n ≤ p then p else nextPow2Loop n fuel (2 * p)

/-- `usize::next_power_of_two`: the smallest power of two `≥ n` (1 for
0); `n` units of fuel always suffice since the candidate doubles. -/
def nextPowerOfTwo (n : Nat) : Nat := nextPow2Loop n n 1

/-- Rust slice `l[a..b]`: `none` models the panic when `a > b` or
`b > l.length`. -/
def slice? {α : Type} (l : List α) (a b : Nat) : Option (List α) :=
  if a ≤ b ∧ b ≤ l.length then some ((l.drop a).take (b - a)) else none

/-- The band edge indices of `compute_frequency_bands`
(`low_start`, `low_end`, `mid_end`, `high_end`): `c / freq_per_bin` with
`freq_per_bin = sample_rate / fft_size` is `c * fft_size / sample_rate`;
the `f32` arithmetic is modelled by the exact rational floor (exact for
the parameter ranges exercised below; `sample_rate = 0`, a division by
zero in `f32`, is outside the scope of the theorems). `high_end` is
capped at the magnitude count `fft_size / 2`. -/
structure BandIndices where
  low_start : Nat
  low_end : Nat
  mid_end : Nat
  high_end : Nat
deriving DecidableEq, Repr

def bandIndices (sample_rate fft_size : Nat) : BandIndices :=
  ⟨20 * fft_size / sample_rate, 250 * fft_size / sample_rate,
    4000 * fft_size / sample_rate,
    min (16000 * fft_size / sample_rate) (fft_size / 2)⟩

/-- One band byte: `(min_brightness + (energy * scale).powf(0.5)).min(255)
as u8` with `min_brightness = 50`; the `f32 as u8` cast truncates toward
zero and saturates, i.e. `Int.toNat` of the floor. -/
def bandByte (env : WaveEnv) (scale energy : ℚ) : Nat :=
  (min (50 + env.sqrtQ (energy * scale)) 255).floor.toNat

/-- `WaveformPoint` as produced by `generate_waveform`, with the exact
rational peak (distinct from the bit-pattern view used for the blob). -/
structure WaveformPointQ where
  peak : ℚ
  low : Nat
  mid : Nat
  high : Nat
deriving DecidableEq, Repr

/-- `WaveformData` as produced by `generate_waveform` (rational peaks). -/
structure WaveformDataQ where
  points : List WaveformPointQ
  sample_rate : Nat
  duration_ms : Nat
deriving DecidableEq, Repr

/-- The Hann-windowed, zero-padded FFT input of
`compute_frequency_bands`. -/
def windowedBuffer (env : WaveEnv) (samples : List ℚ) (fft_size : Nat) : List ℚ :=
  let windowed := List.zipWith (fun s i => s * env.hann fft_size i)
    (samples.take fft_size) (List.range fft_size)
  windowed ++ List.replicate (fft_size - windowed.length) 0

/-- The three band-summation slices of `compute_frequency_bands` in
evaluation order (each `none` models the corresponding slice-index
panic) followed by the gain/gamma compression with scales 0.8 / 0.3 /
1.5. -/
def bandSums (env : WaveEnv) (magnitudes : List ℚ) (b : BandIndices) :
    Option (Nat × Nat × Nat) :=
  match slice? magnitudes b.low_start b.low_end with
  | none => none
  | some lowS =>
    match slice? magnitudes b.low_end b.mid_end with
    | none => none
    | some midS =>
      match slice? magnitudes b.mid_end b.high_end with
      | none => none
      | some highS =>
        some (bandByte env (8/10) lowS.sum, bandByte env (3/10) midS.sum,
          bandByte env (15/10) highS.sum)

/-- `compute_frequency_bands`: early `(0,0,0)` on an empty slice,
windowing and padding, magnitudes of the first `fft_size / 2` bins, then
the band sums. -/
def compute_frequency_bands (env : WaveEnv) (samples : List ℚ) (fft_size sample_rate : Nat) :
    Option (Nat × Nat × Nat) :=
  if samples.isEmpty then some (0, 0, 0)
  else
    bandSums env
      ((List.range (fft_size / 2)).map (env.fftMag (windowedBuffer env samples fft_size)))
      (bandIndices sample_rate fft_size)

/-- The body of the point loop of `generate_waveform` at index `i`: the
segment slice, its peak (a fold of `abs` under `f32::max`), and the band
bytes. -/
def pointAt (env : WaveEnv) (samples : List ℚ) (spp fft_size sample_rate i : Nat) :
    Option WaveformPointQ :=
  match slice? samples (i * spp) (min ((i + 1) * spp) samples.length) with
  | none => none
  | some sl =>
    let peak := sl.foldl (fun acc s => max acc |s|) 0
    match compute_frequency_bands env sl fft_size sample_rate with
    | none => none
    | some (lo, mi, hi) => some ⟨peak, lo, mi, hi⟩

/-- The point loop of `generate_waveform`, indices `0..n` in order;
`none` as soon as any iteration panics. -/
def buildPoints (env : WaveEnv) (samples : List ℚ) (spp fft_size sample_rate : Nat) :
    Nat → Option (List WaveformPointQ)
  | 0 => some []
  | n + 1 =>
    match buildPoints env samples spp fft_size sample_rate n with
    | none => none
    | some ps =>
      match pointAt env samples spp fft_size sample_rate n with
      | none => none
      | some p => some (ps ++ [p])

/-- The `fft_size` computed by `generate_waveform`:
`samples_per_point.next_power_of_two().min(2048)` where
`samples_per_point = (len / target_points).max(1)`. -/
def fftSizeFor (len target_points : Nat) : Nat :=
  min (nextPowerOfTwo (max (len / target_points) 1)) 2048

/-- `generate_waveform` after the external mono decode: the empty-samples
error, the `samples.len() / target_points` division (a panic — `none` —
when `target_points = 0`), and the point loop over
`actual_points = min (len / samples_per_point) target_points` (the
source's `samples_per_point` let-binding is written out inline). -/
def generate_waveform (env : WaveEnv) (audio : MonoAudio) (target_points : Nat) :
    Option (Except String WaveformDataQ) :=
  if audio.samples.isEmpty then some (.error "Audio file has no samples")
  else if target_points = 0 then none
  else
    match buildPoints env audio.samples (max (audio.samples.length / target_points) 1)
      (fftSizeFor audio.samples.length target_points) audio.sample_rate
      (min (audio.samples.length / max (audio.samples.length / target_points) 1)
        target_points) with
    | none => none
    | some ps => some (.ok ⟨ps, audio.sample_rate, audio.duration_ms⟩)

theorem slice?_eq_some {α : Type} (l : List α) (a b : Nat) (h1 : a ≤ b) (h2 : b ≤ l.length) :
    slice? l a b = some ((l.drop a).take (b - a)) := by
  unfold slice?
  rw [if_pos ⟨h1, h2⟩]

theorem bandSums_isSome (env : WaveEnv) (mags : List ℚ) (b : BandIndices)
    (h1 : b.low_start ≤ b.low_end) (h2 : b.low_end ≤ b.mid_end)
    (h3 : b.mid_end ≤ b.high_end) (h4 : b.high_end ≤ mags.length) :
    (bandSums env mags b).isSome = true := by
  unfold bandSums
  rw [slice?_eq_some _ _ _ h1 (by omega), slice?_eq_some _ _ _ h2 (by omega),
    slice?_eq_some _ _ _ h3 h4]
  rfl

theorem bandSums_none_of_mid (env : WaveEnv) (mags : List ℚ) (b : BandIndices)
    (hmid : mags.length < b.mid_end) :
    bandSums env mags b = none := by
  unfold bandSums
  have h2 : slice? mags b.low_end b.mid_end = none := by
    unfold slice?
    rw [if_neg]
    rintro ⟨_, hb⟩
    omega
  cases hlow : slice? mags b.low_start b.low_end with
  | none => rfl
  | some lowS => rw [h2]

theorem cfb_isSome (env : WaveEnv) (samples : List ℚ) (F sr : Nat) (h8 : 8000 ≤ sr) :
    (compute_frequency_bands env samples F sr).isSome = true := by
  unfold compute_frequency_bands
  split
  · rfl
  · have hmid_half : 4000 * F / sr ≤ F / 2 := by
      have h1 : 4000 * F / sr ≤ 4000 * F / 8000 :=
        Nat.div_le_div_left h8 (by norm_num)
      have h2 : 4000 * F / 8000 = F / 2 := by
        rw [show (8000 : Nat) = 4000 * 2 from rfl, Nat.mul_div_mul_left F 2 (by norm_num)]
      omega
    apply bandSums_isSome
    · exact Nat.div_le_div_right (Nat.mul_le_mul_right F (by norm_num))
    · exact Nat.div_le_div_right (Nat.mul_le_mul_right F (by norm_num))
    · exact le_min (Nat.div_le_div_right (Nat.mul_le_mul_right F (by norm_num))) hmid_half
    · simp [bandIndices]

theorem cfb_none_of_mid (env : WaveEnv) (samples : List ℚ) (F sr : Nat)
    (hne : ¬ samples.isEmpty = true) (hmid : F / 2 < 4000 * F / sr) :
    compute_frequency_bands env samples F sr = none := by
  unfold compute_frequency_bands
  rw [if_neg hne]
  apply bandSums_none_of_mid
  simpa [bandIndices] using hmid

theorem pointAt_isSome (env : WaveEnv) (samples : List ℚ) (spp F sr i : Nat)
    (h8 : 8000 ≤ sr) (hspp : 0 < spp) (hi : i < samples.length / spp) :
    (pointAt env samples spp F sr i).isSome = true := by
  have hend : (i + 1) * spp ≤ samples.length :=
    (Nat.le_div_iff_mul_le hspp).mp (Nat.succ_le_of_lt hi)
  have hmin : min ((i + 1) * spp) samples.length = (i + 1) * spp := min_eq_left hend
  unfold pointAt
  rw [slice?_eq_some _ _ _ (by rw [hmin]; exact Nat.mul_le_mul_right spp (by omega))
    (min_le_right _ _)]
  obtain ⟨v, hv⟩ := Option.isSome_iff_exists.mp
    (cfb_isSome env ((samples.drop (i * spp)).take
      (min ((i + 1) * spp) samples.length - i * spp)) F sr h8)
  obtain ⟨lo, mi, hi2⟩ := v
  simp [hv]

theorem buildPoints_isSome (env : WaveEnv) (samples : List ℚ) (spp F sr : Nat) :
    ∀ n, (∀ i, i < n → (pointAt env samples spp F sr i).isSome = true) →
      (buildPoints env samples spp F sr n).isSome = true := by
  intro n
  induction n with
  | zero => intro _; rfl
  | succ n ih =>
    intro h
    obtain ⟨ps, hps⟩ := Option.isSome_iff_exists.mp (ih (fun i hi => h i (by omega)))
    obtain ⟨p, hp⟩ := Option.isSome_iff_exists.mp (h n (by omega))
    unfold buildPoints
    rw [hps, hp]
    rfl

theorem buildPoints_none (env : WaveEnv) (samples : List ℚ) (spp F sr : Nat)
    (h0 : pointAt env samples spp F sr 0 = none) :
    ∀ n, 0 < n → buildPoints env samples spp F sr n = none := by
  intro n
  induction n with
  | zero => omega
  | succ n ih =>
    intro _
    by_cases hn : 0 < n
    · unfold buildPoints
      rw [ih hn]
    · have hn0 : n = 0 := by omega
      subst hn0
      unfold buildPoints
      rw [h0]
      rfl

theorem pointAt_zero_none (env : WaveEnv) (samples : List ℚ) (spp F sr : Nat)
    (hne : samples ≠ []) (hspp : 0 < spp) (hmid : F / 2 < 4000 * F / sr) :
    pointAt env samples spp F sr 0 = none := by
  have hlen : 0 < samples.length := List.length_pos.mpr hne
  unfold pointAt
  cases hsl : slice? samples (0 * spp) (min ((0 + 1) * spp) samples.length) with
  | none => rfl
  | some sl =>
    have hslval : sl =
        (samples.drop (0 * spp)).take (min ((0 + 1) * spp) samples.length - 0 * spp) := by
      unfold slice? at hsl
      split at hsl
      · exact (Option.some.injEq _ _).mp hsl |>.symm
      · exact Option.noConfusion hsl
    have hne2 : ¬ sl.isEmpty = true := by
      rw [hslval]
      simp only [Nat.zero_mul, List.drop_zero, Nat.sub_zero, List.isEmpty_iff]
      intro hcon
      have hlc := congrArg List.length hcon
      simp only [List.length_take, List.length_nil] at hlc
      rcases Nat.min_eq_zero_iff.mp hlc with h1 | h1
      · rcases Nat.min_eq_zero_iff.mp h1 with h2 | h2 <;> omega
      · omega
    simp only [cfb_none_of_mid env sl F sr hne2 hmid]

end Waveform

set_option maxRecDepth 100000 in
set_option maxHeartbeats 2000000 in
/-- C10 counterexample: the claim asserts that any sample rate below
8000 Hz makes the mid-band slice go out of range; at 7999 Hz with a
1025-sample buffer and one target point (FFT size 2048) the mid index is
`floor(4000 * 2048 / 7999) = 1024`, exactly the magnitude count, so the
generator completes without any out-of-range slice. -/
theorem claim_C10_counterexample :
    (⟨List.replicate 1025 0, 7999, 0⟩ : MonoAudio).sample_rate < 8000 ∧
      (Waveform.generate_waveform ⟨fun _ _ => 0, fun _ _ => 0, fun _ => 0⟩
        ⟨List.replicate 1025 0, 7999, 0⟩ 1).isSome = true := by
  constructor
  · decide
  · decide

/-- C10 (amended): the waveform generator is panic-free whenever
`target_points ≥ 1` and `sample_rate ≥ 8000` Hz (the segment-size
division and every slice index stay in range, for every FFT environment);
with `target_points = 0` on non-empty audio the segment-size computation
divides by zero; and the mid-band summation slice is out of range exactly
in the regime where the computed mid index `4000 * fft_size / sample_rate`
exceeds the magnitude count `fft_size / 2` — which covers sufficiently low
sample rates (e.g. 4000 Hz) but, contrary to the claim, not every rate
below 8000 Hz (7993-7999 Hz stay in range even at the 2048 cap). -/
theorem claim_C10 :
    (∀ (env : Waveform.WaveEnv) (audio : MonoAudio) (target_points : Nat),
        1 ≤ target_points → 8000 ≤ audio.sample_rate →
        (Waveform.generate_waveform env audio target_points).isSome = true)
    ∧ (∀ (env : Waveform.WaveEnv) (audio : MonoAudio) (target_points : Nat),
        audio.samples ≠ [] → target_points = 0 →
        Waveform.generate_waveform env audio target_points = none)
    ∧ (∀ (env : Waveform.WaveEnv) (audio : MonoAudio) (target_points : Nat),
        audio.samples ≠ [] → 1 ≤ target_points →
        Waveform.fftSizeFor audio.samples.length target_points / 2 <
          4000 * Waveform.fftSizeFor audio.samples.length target_points /
            audio.sample_rate →
        Waveform.generate_waveform env audio target_points = none) := by
  refine ⟨fun env audio target ht h8 => ?_, fun env audio target hne h0 => ?_,
    fun env audio target hne ht hmid => ?_⟩
  · unfold Waveform.generate_waveform
    by_cases he : audio.samples.isEmpty
    · rw [if_pos he]; rfl
    · rw [if_neg he, if_neg (by omega)]
      have hspp : 0 < max (audio.samples.length / target) 1 :=
        lt_of_lt_of_le Nat.one_pos (le_max_right _ 1)
      obtain ⟨ps, hps⟩ := Option.isSome_iff_exists.mp
        (Waveform.buildPoints_isSome env audio.samples _ _ audio.sample_rate _
          (fun i hi => Waveform.pointAt_isSome env audio.samples _ _ audio.sample_rate i
            h8 hspp (lt_of_lt_of_le hi (min_le_left _ _))))
      rw [hps]
      rfl
  · unfold Waveform.generate_waveform
    rw [if_neg (by simpa [List.isEmpty_iff] using hne), if_pos h0]
  · unfold Waveform.generate_waveform
    rw [if_neg (by simpa [List.isEmpty_iff] using hne), if_neg (by omega)]
    have hspp : 0 < max (audio.samples.length / target) 1 :=
      lt_of_lt_of_le Nat.one_pos (le_max_right _ 1)
    have hlen : 0 < audio.samples.length := List.length_pos.mpr hne
    have hact : 0 < min (audio.samples.length / max (audio.samples.length / target) 1)
        target := by
      have hspple : max (audio.samples.length / target) 1 ≤ audio.samples.length :=
        max_le (Nat.div_le_self _ _) hlen
      exact lt_min ((Nat.one_le_div_iff hspp).mpr hspple) ht
    rw [Waveform.buildPoints_none env audio.samples _ _ audio.sample_rate
      (Waveform.pointAt_zero_none env audio.samples _ _ audio.sample_rate hne hspp hmid)
      _ hact]

set_option maxRecDepth 100000 in
set_option maxHeartbeats 1000000 in
/-- C10 witness: the safe regime at 8000 Hz with 2 target points, the
division-by-zero panic at `target_points = 0`, and the out-of-range
mid-band slice at 4000 Hz (FFT size 2048, mid index 2048 > 1024). -/
theorem claim_C10_witness :
    (Waveform.generate_waveform ⟨fun _ _ => 0, fun _ _ => 0, fun _ => 0⟩
        ⟨[1, 1, 1, 1], 8000, 0⟩ 2).isSome = true
    ∧ Waveform.generate_waveform ⟨fun _ _ => 0, fun _ _ => 0, fun _ => 0⟩
        ⟨[1, 1, 1, 1], 8000, 0⟩ 0 = none
    ∧ Waveform.generate_waveform ⟨fun _ _ => 0, fun _ _ => 0, fun _ => 0⟩
        ⟨List.replicate 1025 0, 4000, 0⟩ 1 = none :=
  ⟨claim_C10.1 ⟨fun _ _ => 0, fun _ _ => 0, fun _ => 0⟩ ⟨[1, 1, 1, 1], 8000, 0⟩ 2
      (by decide) (by decide),
   claim_C10.2.1 ⟨fun _ _ => 0, fun _ _ => 0, fun _ => 0⟩ ⟨[1, 1, 1, 1], 8000, 0⟩ 0
      (by decide) rfl,
   claim_C10.2.2 ⟨fun _ _ => 0, fun _ _ => 0, fun _ => 0⟩ ⟨List.replicate 1025 0, 4000, 0⟩ 1
      (by decide) (by decide) (by decide)⟩
